import Mathlib

/-!
Verification of the Hardhat build-artifact normalization engine
(`crytic_compile/platform/hardhat.py`).

The Python source is shallowly embedded: JSON documents become an inductive
`Json` type, Python dictionaries become association lists preserving insertion
order, Python sets become duplicate-free lists in insertion order, and the
exceptions the interpreter can raise (`KeyError`, `TypeError`,
`AttributeError`, `json.JSONDecodeError`, `InvalidCompilation`) become an
explicit error type threaded through `Except`.
-/

/-- A JSON value, as produced by Python's `json.load`. -/
inductive Json where
  | null
  | bool (b : Bool)
  | num (n : Int)
  | str (s : String)
  | arr (elems : List Json)
  | obj (fields : List (String × Json))
  deriving Repr

/-- Python `j == s` for a decoded JSON value and a string literal: only a
string with the same content compares equal. -/
def Json.eqStr (j : Json) (s : String) : Bool :=
  match j with
  | .str a => a == s
  | _ => false

/-- Python `j in l` for a decoded JSON value and a list of strings: `in` tests
`==` against each element, and only an equal string matches. -/
def Json.inStrList (j : Json) (l : List String) : Bool :=
  match j with
  | .str a => l.contains a
  | _ => false

/-- The Python exceptions the embedded code can raise. `invalidCompilation`
is the library's own typed error (`crytic_compile.platform.exceptions`);
the others are interpreter built-ins. -/
inductive PyError where
  | keyError (k : String)
  | typeError
  | attributeError
  | jsonDecodeError
  | invalidCompilation (msg : String)
  deriving Repr, DecidableEq

/-- Containment of one character sequence in another (Python's substring
`in`). -/
def hasSubstr : List Char → List Char → Bool
  | [], needle => needle.isEmpty
  | h :: t, needle => needle.isPrefixOf (h :: t) || hasSubstr t needle

/-- Python's `s in container` for a string and a JSON value: substring test on
strings, membership on lists, key test on dicts, `TypeError` otherwise. -/
def Json.memKey (j : Json) (k : String) : Except PyError Bool :=
  match j with
  | .obj fields => .ok (fields.any (fun p => p.1 == k))
  | .arr elems => .ok (elems.any (fun e => e.eqStr k))
  | .str s => .ok (hasSubstr s.data k.data)
  | _ => .error .typeError

/-- Python's `j[k]` subscription: the value when `j` is a dict containing `k`,
`KeyError` when the key is absent, `TypeError` when `j` is not a dict. -/
def Json.getKey (j : Json) (k : String) : Except PyError Json :=
  match j with
  | .obj fields =>
    match fields.lookup k with
    | some v => .ok v
    | none => .error (.keyError k)
  | _ => .error .typeError

/-- Python's `j.get(k, d)` on a dict; `AttributeError` when `j` is not a dict. -/
def Json.getD (j : Json) (k : String) (d : Json) : Except PyError Json :=
  match j with
  | .obj fields => .ok ((fields.lookup k).getD d)
  | _ => .error .attributeError

/-- Python's `.items()` iteration source: the field list when `j` is a dict,
`AttributeError` otherwise. -/
def Json.asObj (j : Json) : Except PyError (List (String × Json)) :=
  match j with
  | .obj fields => .ok fields
  | _ => .error .attributeError

/-- Requires a Python `str` (for `.split`); `AttributeError` otherwise. -/
def Json.asStr (j : Json) : Except PyError String :=
  match j with
  | .str s => .ok s
  | _ => .error .attributeError

/-- Python's single-character `s.split(sep)`: split the character sequence on
every occurrence of `sep`, keeping empty pieces. -/
def pySplit (s : String) (sep : Char) : List String :=
  (s.data.splitOn sep).map (fun cs => String.mk cs)

/-- Python's `sep.join(xs)` for a single-character separator. -/
def pyJoin (sep : Char) (xs : List String) : String :=
  String.mk (List.intercalate [sep] (xs.map String.data))

/-- Model of POSIX `os.path.join` / `pathlib.Path(a, b)`: an absolute second
component overrides the first. -/
def joinpath (a b : String) : String :=
  if "/".data.isPrefixOf b.data then b else a ++ "/" ++ b

/-- The canonical four-form filename identity produced by the Path
Canonicalizer. -/
structure Filename where
  absolute : String
  relative : String
  short : String
  used : String
  deriving Repr, DecidableEq

/-- Modelled from the spec: `convert_filename` lives in
`crytic_compile.utils.naming`, which is not under src/. Per §4.1, it resolves
a reported path against the working directory into an absolute form, keeps the
original string verbatim as the `used` form, and derives display-only
`relative`/`short` forms. The relative and short forms are never used for
equality, so they are modelled as the reported path itself. -/
def convert_filename (raw_path : String) (working_dir : String) : Filename :=
  { absolute := joinpath working_dir raw_path
    relative := raw_path
    short := raw_path
    used := raw_path }

/-- Modelled from the spec: `extract_name` lives in
`crytic_compile.utils.naming`, which is not under src/. Per §4.4 it extracts
the unqualified contract name from a possibly `path:Name`-qualified one, i.e.
the segment after the last colon. -/
def extract_name (name : String) : String :=
  (pySplit name ':').getLastD name

/-- Modelled from the spec: `Natspec` lives in `crytic_compile.utils.natspec`,
which is not under src/. Per §3 it is a (user-doc, dev-doc) pair of opaque
JSON values. -/
structure Natspec where
  userdoc : Json
  devdoc : Json
  deriving Repr

/-- The (family, version, optimization) triple stored on a unit. The version
and optimization flag are whatever JSON values the artifact held. -/
structure CompilerVersion where
  compiler : String
  version : Json
  optimized : Json
  deriving Repr

/-- Modelled from the spec: the `CompilationUnit` container lives in
`crytic_compile.compilation_unit`, which is not under src/. Per §3 it is a
record of per-contract and per-file registries; Python dicts are modelled as
association lists in insertion order and Python sets as duplicate-free lists
in insertion order. -/
structure CompilationUnit where
  uniq_id : String
  compiler_version : CompilerVersion
  contracts_names : List String
  filename_to_contracts : List (Filename × List String)
  abis : List (String × Json)
  bytecodes_init : List (String × Json)
  bytecodes_runtime : List (String × Json)
  srcmaps_init : List (String × List String)
  srcmaps_runtime : List (String × List String)
  natspec : List (String × Natspec)
  filenames : List Filename
  asts : List (String × Json)
  deriving Repr

/-- A freshly constructed `CompilationUnit(crytic_compile, uniq_id)`: every
registry empty, the compiler version not yet assigned. -/
def emptyUnit (uniq_id : String) : CompilationUnit :=
  { uniq_id := uniq_id
    compiler_version := { compiler := "", version := .null, optimized := .null }
    contracts_names := []
    filename_to_contracts := []
    abis := []
    bytecodes_init := []
    bytecodes_runtime := []
    srcmaps_init := []
    srcmaps_runtime := []
    natspec := []
    filenames := []
    asts := [] }

/-- Python dict assignment `m[k] = v`: overwrite in place when the key exists
(keeping its position), append otherwise. -/
def setKey {α : Type} : List (String × α) → String → α → List (String × α)
  | [], k, v => [(k, v)]
  | (k1, v1) :: rest, k, v =>
    if k1 == k then (k, v) :: rest else (k1, v1) :: setKey rest k v

/-- Python `set.add`: insert unless already a member. -/
def insertNew {α : Type} [BEq α] (s : List α) (x : α) : List α :=
  if s.contains x then s else s ++ [x]

/-- `defaultdict(set)` update `m[fn].add(c)`. -/
def addContract : List (Filename × List String) → Filename → String →
    List (Filename × List String)
  | [], fn, c => [(fn, [c])]
  | (fn1, cs) :: rest, fn, c =>
    if fn1 == fn then (fn1, insertNew cs c) :: rest
    else (fn1, cs) :: addContract rest fn c

/-- The legacy solc versions triggering the path quirk:
`[f"0.4.{x}" for x in range(0, 10)]` (hardhat.py line 124). -/
def legacy_versions : List String :=
  (List.range 10).map (fun x => "0.4." ++ toString x)

/-- One iteration of the inner contracts loop (hardhat.py lines 130-161):
registers one contract of one source file into the unit, following the
statement order of the source. -/
def processContract (working_dir : String) (original_filename : String)
    (original_contract_name : String) (info : Json) (u : CompilationUnit) :
    Except PyError CompilationUnit := do
  let contract_name := extract_name original_contract_name
  let contract_filename := convert_filename original_filename working_dir
  let u := { u with contracts_names := insertNew u.contracts_names contract_name }
  let ftc := addContract u.filename_to_contracts contract_filename contract_name
  let u := { u with filename_to_contracts := ftc }
  let abi ← info.getKey "abi"
  let u := { u with abis := setKey u.abis contract_name abi }
  let evm ← info.getKey "evm"
  let bytecode ← evm.getKey "bytecode"
  let initObject ← bytecode.getKey "object"
  let u := { u with bytecodes_init := setKey u.bytecodes_init contract_name initObject }
  let evm2 ← info.getKey "evm"
  let deployed ← evm2.getKey "deployedBytecode"
  let runtimeObject ← deployed.getKey "object"
  let u := { u with bytecodes_runtime := setKey u.bytecodes_runtime contract_name runtimeObject }
  let evm3 ← info.getKey "evm"
  let bytecode2 ← evm3.getKey "bytecode"
  let initMapJson ← bytecode2.getKey "sourceMap"
  let initMap ← initMapJson.asStr
  let u := { u with srcmaps_init := setKey u.srcmaps_init contract_name (pySplit initMap ';') }
  let evm4 ← info.getKey "evm"
  let deployed2 ← evm4.getKey "deployedBytecode"
  let runtimeMapJson ← deployed2.getKey "sourceMap"
  let runtimeMap ← runtimeMapJson.asStr
  let u := { u with srcmaps_runtime := setKey u.srcmaps_runtime contract_name (pySplit runtimeMap ';') }
  let userdoc ← info.getD "userdoc" (Json.obj [])
  let devdoc ← info.getD "devdoc" (Json.obj [])
  let u := { u with natspec := setKey u.natspec contract_name { userdoc := userdoc, devdoc := devdoc } }
  return u

/-- The inner contracts loop over one source file's contract map. -/
def processContractList (working_dir : String) (original_filename : String) :
    List (String × Json) → CompilationUnit → Except PyError CompilationUnit
  | [], u => .ok u
  | (name, info) :: rest, u => do
    let u ← processContract working_dir original_filename name info u
    processContractList working_dir original_filename rest u

/-- The outer contracts loop (hardhat.py line 129): iterates
`targets_json["contracts"].items()`. -/
def processContracts (working_dir : String) :
    List (String × Json) → CompilationUnit → Except PyError CompilationUnit
  | [], u => .ok u
  | (original_filename, contracts_info) :: rest, u => do
    let inner ← contracts_info.asObj
    let u ← processContractList working_dir original_filename inner u
    processContracts working_dir rest u

/-- The sources loop (hardhat.py lines 163-181): canonicalizes each reported
path (or the project target when the legacy quirk is active), inserting into
the run-global filename set, the unit's filename set, and the AST registry. -/
def processSources (skip_filename : Bool) (target working_dir : String) :
    List (String × Json) → List Filename → CompilationUnit →
    Except PyError (List Filename × CompilationUnit)
  | [], global_filenames, u => .ok (global_filenames, u)
  | (path, info) :: rest, global_filenames, u => do
    let fn := if skip_filename then convert_filename target working_dir
              else convert_filename path working_dir
    let global_filenames := insertNew global_filenames fn
    let u := { u with filenames := insertNew u.filenames fn }
    let ast ← info.getKey "ast"
    let u := { u with asts := setKey u.asts fn.absolute ast }
    processSources skip_filename target working_dir rest global_filenames u

/-- The contracts-and-sources part of the per-artifact body (hardhat.py
lines 128-181): the two optional section walks, guarded by `in` tests. -/
def parseBody (targets_json : Json) (skip_filename : Bool)
    (target hardhat_working_dir : String) (global_filenames : List Filename)
    (u : CompilationUnit) : Except PyError (List Filename × CompilationUnit) := do
  let hasContracts ← targets_json.memKey "contracts"
  let u ← if hasContracts then do
      let contractsJson ← targets_json.getKey "contracts"
      let contracts ← contractsJson.asObj
      processContracts hardhat_working_dir contracts u
    else
      pure u
  let hasSources ← targets_json.memKey "sources"
  if hasSources then do
    let sourcesJson ← targets_json.getKey "sources"
    let sources ← sourcesJson.asObj
    processSources skip_filename target hardhat_working_dir sources global_filenames u
  else
    return (global_filenames, u)

/-- The per-artifact body of `Hardhat.compile` (hardhat.py lines 110-181):
decode-dependent field extraction, compiler version resolution, the legacy
quirk flag, and the contracts and sources walks. `global_filenames` threads
the run-global `crytic_compile.filenames` set. -/
def parseArtifact (loaded_json : Json) (target hardhat_working_dir : String)
    (uniq_id : String) (global_filenames : List Filename) :
    Except PyError (List Filename × CompilationUnit) := do
  let targets_json ← loaded_json.getKey "output"
  let version_from_config ← loaded_json.getKey "solcVersion"
  let input_json ← loaded_json.getKey "input"
  let language ← input_json.getKey "language"
  let compiler := if language.eqStr "Solidity" then "solc" else "vyper"
  let settings ← input_json.getKey "settings"
  let optimizer ← settings.getKey "optimizer"
  let optimized ← optimizer.getKey "enabled"
  let u := { emptyUnit uniq_id with
    compiler_version :=
      { compiler := compiler, version := version_from_config, optimized := optimized } }
  let skip_filename := version_from_config.inStrList legacy_versions
  parseBody targets_json skip_filename target hardhat_working_dir global_filenames u

/-- Python's `f.endswith(".json")`. -/
def endsWithJson (f : String) : Bool :=
  ".json".data.isSuffixOf f.data

/-- The artifact locator (hardhat.py lines 95-98): the directory listing is
sorted by modification time, then filtered to names ending in `.json`. The
listing pairs each name with its modification time; Python's `sorted` is a
stable sort, whose result a stable insertion sort reproduces exactly. -/
def locateFiles (listing : List (String × Nat)) : List String :=
  (((List.insertionSort (fun a b => a.2 ≤ b.2) listing).map (fun p => p.1)).filter
    (fun f => endsWithJson f))

/-- The same sorted-and-filtered sequence, keeping each retained file paired
with its modification time. -/
def locatePairs (listing : List (String × Nat)) : List (String × Nat) :=
  ((List.insertionSort (fun a b => a.2 ≤ b.2) listing).filter
    (fun p => endsWithJson p.1))

/-- Artifact id derivation (hardhat.py line 107): strip the last five
characters (`file[0:-5]`) when the name contains `.json`, keep the name
otherwise. -/
def uniqIdOf (file : String) : String :=
  if hasSubstr file.data ".json".data then
    String.mk (file.data.take (file.data.length - 5))
  else
    file

/-- The `InvalidCompilation` message raised when no artifacts are found
(hardhat.py line 100). -/
def noArtifactsMsg (build_directory : String) : String :=
  "\x60hardhat compile\x60 failed. Can you run it?\n" ++ build_directory ++ " is empty"

/-- The per-file loop of `Hardhat.compile` (lines 103-181): read and decode
each artifact (`read_artifact` returns `none` when the file is not valid
JSON, in which case `json.load` raises), parse it, and accumulate the
(id, unit) pairs and the run-global filename set. -/
def compileFiles (read_artifact : String → Option Json)
    (target hardhat_working_dir : String) :
    List String → List Filename → List (String × CompilationUnit) →
    Except PyError (List Filename × List (String × CompilationUnit))
  | [], global_filenames, units => .ok (global_filenames, units)
  | file :: rest, global_filenames, units =>
    match read_artifact file with
    | none => .error .jsonDecodeError
    | some j => do
      let uid := uniqIdOf file
      let (global_filenames, u) ← parseArtifact j target hardhat_working_dir uid global_filenames
      compileFiles read_artifact target hardhat_working_dir rest global_filenames
        (units ++ [(uid, u)])

/-- The artifact-driven part of `Hardhat.compile` (lines 95-181): locate the
artifacts, fail with `InvalidCompilation` when none remain after filtering,
then parse each in order. -/
def compileAll (listing : List (String × Nat)) (read_artifact : String → Option Json)
    (build_directory target hardhat_working_dir : String) :
    Except PyError (List Filename × List (String × CompilationUnit)) :=
  let files := locateFiles listing
  if files.isEmpty then
    .error (.invalidCompilation (noArtifactsMsg build_directory))
  else
    compileFiles read_artifact target hardhat_working_dir files [] []

/-- `Hardhat.is_supported` (lines 183-199): `hardhat_ignore` wins, else a
`hardhat.config.js` or `hardhat.config.ts` file directly under the target
decides. `isfile` abstracts `os.path.isfile`. -/
def is_supported (target : String) (hardhat_ignore : Bool)
    (isfile : String → Bool) : Bool :=
  if hardhat_ignore then
    false
  else
    isfile (joinpath target "hardhat.config.js") ||
      isfile (joinpath target "hardhat.config.ts")

/-- A value in the hardhat paths dictionary: a `pathlib.Path` built by the
engine or a JSON value reported by the configuration probe. -/
inductive PathVal where
  | path (s : String)
  | jsonVal (v : Json)
  deriving Repr

/-- The built-in default paths (hardhat.py lines 238-245). -/
def default_paths (target : String) : List (String × PathVal) :=
  [("root", .path target),
   ("configFile", .path (joinpath target "hardhat.config.js")),
   ("sources", .path (joinpath target "contracts")),
   ("cache", .path (joinpath target "cache")),
   ("artifacts", .path (joinpath target "artifacts")),
   ("tests", .path (joinpath target "test"))]

/-- Python truthiness of `args.get(k, None)` for string-valued kwargs:
present and non-empty. -/
def truthyArg (args : List (String × String)) (k : String) : Option String :=
  match args.lookup k with
  | some s => if s == "" then none else some s
  | none => none

/-- The explicit override paths (hardhat.py lines 246-255), built in source
order: cache, artifacts, root. -/
def override_paths (target : String) (args : List (String × String)) :
    List (String × PathVal) :=
  let o : List (String × PathVal) := []
  let o := match truthyArg args "hardhat_cache_directory" with
    | some s => setKey o "cache" (.path (joinpath target s))
    | none => o
  let o := match truthyArg args "hardhat_artifacts_directory" with
    | some s => setKey o "artifacts" (.path (joinpath target s))
    | none => o
  match truthyArg args "hardhat_working_dir" with
  | some s => setKey o "root" (.path (joinpath target s))
  | none => o

/-- Python `{**a, **b}`: fold the updates of `b` over `a`, later keys
winning. -/
def mergeDict (a b : List (String × PathVal)) : List (String × PathVal) :=
  b.foldl (fun m p => setKey m p.1 p.2) a

/-- The string handed to `json.loads`: `config_str or "{}"` (line 261), i.e.
the probe output unless it is `None` or empty. -/
def probeStr (config_str : Option String) : String :=
  match config_str with
  | none => "\x7b\x7d"
  | some s => if s == "" then "\x7b\x7d" else s

/-- `Hardhat._get_hardhat_paths` (lines 224-265), below the subprocess
boundary: `config_str` is the probe's stdout (`none` when the probe wrote to
stderr) and `json_loads` abstracts Python's `json.loads` (`error` models
`ValueError`). A decode error falls back to defaults plus overrides; a
decoded non-dict makes the `{**...}` merge raise `TypeError`. -/
def get_hardhat_paths (target : String) (args : List (String × String))
    (config_str : Option String) (json_loads : String → Except Unit Json) :
    Except PyError (List (String × PathVal)) :=
  let dflt := default_paths target
  let ovr := override_paths target args
  match json_loads (probeStr config_str) with
  | .error _ => .ok (mergeDict dflt ovr)
  | .ok (.obj fields) =>
    .ok (mergeDict (mergeDict dflt (fields.map (fun p => (p.1, PathVal.jsonVal p.2)))) ovr)
  | .ok _ => .error .typeError

/-- A contract info block with the two source-map strings as parameters,
shaped like the spec's minimal artifact. -/
def srcmapInfo (s1 s2 : String) : Json :=
  .obj [("abi", .arr []),
        ("evm", .obj [("bytecode", .obj [("object", .str "60"), ("sourceMap", .str s1)]),
                      ("deployedBytecode", .obj [("object", .str "61"), ("sourceMap", .str s2)])])]

/-- The spec's minimal artifact `input` section. -/
def solidityInput : Json :=
  .obj [("language", .str "Solidity"),
        ("settings", .obj [("optimizer", .obj [("enabled", .bool true)])])]

/-- A single-contract artifact with parameterized source-map strings. -/
def srcmapArtifact (s1 s2 : String) : Json :=
  .obj [("solcVersion", .str "0.8.1"), ("input", solidityInput),
        ("output", .obj [("contracts", .obj [("A.sol", .obj [("Foo", srcmapInfo s1 s2)])])])]

/-- The spec's minimal artifact. -/
def c2Artifact : Json := srcmapArtifact "1:2:0;3:4:0" "5:6:0"

/-- A non-Solidity artifact whose version string lies in the legacy 0.4.x
range. -/
def vyperLegacyArtifact : Json :=
  .obj [("solcVersion", .str "0.4.0"),
        ("input", .obj [("language", .str "Vyper"),
                        ("settings", .obj [("optimizer", .obj [("enabled", .bool false)])])]),
        ("output", .obj [("sources", .obj [("contracts/a.vy", .obj [("ast", .null)])])])]

/-- A modern-version artifact with a sources section and no contracts
section. -/
def sourcesOnlyArtifact : Json :=
  .obj [("solcVersion", .str "0.8.1"), ("input", solidityInput),
        ("output", .obj [("sources", .obj [("a.sol", .obj [("ast", .null)])])])]

/-- An artifact whose output has neither a contracts nor a sources section. -/
def emptyOutputArtifact : Json :=
  .obj [("solcVersion", .str "0.8.1"), ("input", solidityInput), ("output", .obj [])]

/-- An artifact defining a contract named Foo in two distinct source files. -/
def duplicateNameArtifact : Json :=
  .obj [("solcVersion", .str "0.8.1"), ("input", solidityInput),
        ("output", .obj [("contracts",
          .obj [("A.sol", .obj [("Foo", srcmapInfo "1:2:0;3:4:0" "5:6:0")]),
                ("B.sol", .obj [("Foo", srcmapInfo "1:2:0;3:4:0" "5:6:0")])])])]

/-- A concrete stand-in for Python's `json.loads` used to instantiate the
path-configuration theorems. -/
def jsonLoadsW : String → Except Unit Json :=
  fun s =>
    if s == "cfg" then .ok (.obj [("artifacts", .str "custom")])
    else if s == "\x7b\x7d" then .ok (.obj [])
    else .error ()

/-- The abis-registry invariant of a unit: every contract name keyed in `abis`
is registered in `contracts_names` and in at least one value-set of
`filename_to_contracts`. -/
def abisInv (u : CompilationUnit) : Prop :=
  ∀ k, (u.abis.lookup k).isSome = true →
    k ∈ u.contracts_names ∧ ∃ e, e ∈ u.filename_to_contracts ∧ k ∈ e.2

/-- The asts-registry invariant of a unit: every key of `asts` is the
absolute form of a member of `filenames`. -/
def astsInv (u : CompilationUnit) : Prop :=
  ∀ k, (u.asts.lookup k).isSome = true → ∃ fn, fn ∈ u.filenames ∧ k = fn.absolute

/-- The source-map invariant of a unit: every stored source-map sequence is
the `;`-split of some string. -/
def srcmapsInv (u : CompilationUnit) : Prop :=
  ∀ k l, (u.srcmaps_init.lookup k = some l ∨ u.srcmaps_runtime.lookup k = some l) →
    ∃ s, l = pySplit s ';'

/-- The unit produced from the minimal artifact, used to instantiate theorems: the unit produced from the minimal artifact. -/
def c2Unit : CompilationUnit :=
  { uniq_id := "art0"
    compiler_version :=
      { compiler := "solc", version := Json.str "0.8.1", optimized := Json.bool true }
    contracts_names := ["Foo"]
    filename_to_contracts := [(convert_filename "A.sol" "/proj", ["Foo"])]
    abis := [("Foo", Json.arr [])]
    bytecodes_init := [("Foo", Json.str "60")]
    bytecodes_runtime := [("Foo", Json.str "61")]
    srcmaps_init := [("Foo", ["1:2:0", "3:4:0"])]
    srcmaps_runtime := [("Foo", ["5:6:0"])]
    natspec := [("Foo", { userdoc := Json.obj [], devdoc := Json.obj [] })]
    filenames := []
    asts := [] }

/-- The unit produced from the sources-only artifact. -/
def sourcesOnlyUnit : CompilationUnit :=
  { uniq_id := "a"
    compiler_version :=
      { compiler := "solc", version := Json.str "0.8.1", optimized := Json.bool true }
    contracts_names := []
    filename_to_contracts := []
    abis := []
    bytecodes_init := []
    bytecodes_runtime := []
    srcmaps_init := []
    srcmaps_runtime := []
    natspec := []
    filenames := [convert_filename "a.sol" "/proj"]
    asts := [((convert_filename "a.sol" "/proj").absolute, Json.null)] }

theorem exceptBind_ok {ε α β : Type} (a : α) (f : α → Except ε β) :
    (Except.ok a >>= f : Except ε β) = f a := rfl

theorem exceptBind_error {ε α β : Type} (e : ε) (f : α → Except ε β) :
    (Except.error e >>= f : Except ε β) = .error e := rfl

theorem setKey_lookup {α : Type} (m : List (String × α)) (k : String) (v : α)
    (k' : String) :
    (setKey m k v).lookup k' = if k' = k then some v else m.lookup k' := by
  induction m with
  | nil =>
    by_cases h : k' = k
    · subst h; simp [setKey]
    · have hb : (k' == k) = false := beq_eq_false_iff_ne.mpr h
      simp [setKey, List.lookup, hb, h]
  | cons p rest ih =>
    obtain ⟨k1, v1⟩ := p
    by_cases h : k1 = k
    · subst h
      have hb : (k1 == k1) = true := beq_iff_eq.mpr rfl
      by_cases h2 : k' = k1
      · subst h2
        simp [setKey, hb]
      · have hb2 : (k' == k1) = false := beq_eq_false_iff_ne.mpr h2
        simp [setKey, hb, List.lookup, hb2, h2]
    · have hb : (k1 == k) = false := beq_eq_false_iff_ne.mpr h
      by_cases h2 : k' = k1
      · subst h2
        have hk : ¬k' = k := fun hc => h hc
        simp [setKey, hb, List.lookup, hk]
      · have hb2 : (k' == k1) = false := beq_eq_false_iff_ne.mpr h2
        simp [setKey, hb, List.lookup, hb2, ih]

theorem mem_insertNew {α : Type} [DecidableEq α] (s : List α) (x y : α) :
    y ∈ insertNew s x ↔ y ∈ s ∨ y = x := by
  unfold insertNew
  by_cases h : x ∈ s
  · rw [if_pos (by simpa using h)]
    constructor
    · exact fun hy => Or.inl hy
    · rintro (hy | rfl)
      · exact hy
      · exact h
  · rw [if_neg (by simpa using h)]
    simp

theorem exceptPure {ε α : Type} (a : α) : (pure a : Except ε α) = .ok a := rfl

theorem exceptBind_ok_inv {ε α β : Type} {e : Except ε α} {f : α → Except ε β}
    {b : β} (h : (e >>= f) = .ok b) : ∃ a, e = .ok a ∧ f a = .ok b := by
  cases e with
  | error _ => rw [exceptBind_error] at h; exact Except.noConfusion h
  | ok a => exact ⟨a, rfl, by rwa [exceptBind_ok] at h⟩

theorem setKey_ne_nil {α : Type} (m : List (String × α)) (k : String) (v : α) :
    setKey m k v ≠ [] := by
  cases m with
  | nil => simp [setKey]
  | cons p rest =>
    obtain ⟨a, b⟩ := p
    unfold setKey
    split <;> simp

theorem addContract_exists (m : List (Filename × List String)) (fn : Filename)
    (c : String) : ∃ e, e ∈ addContract m fn c ∧ c ∈ e.2 := by
  induction m with
  | nil => exact ⟨(fn, [c]), by simp [addContract], by simp⟩
  | cons p rest ih =>
    obtain ⟨fn1, cs⟩ := p
    by_cases h : fn1 = fn
    · subst h
      have ht : (fn1 == fn1) = true := beq_iff_eq.mpr rfl
      exact ⟨(fn1, insertNew cs c), by simp [addContract, ht],
        (mem_insertNew cs c c).mpr (Or.inr rfl)⟩
    · obtain ⟨e, he, hc⟩ := ih
      have hf : (fn1 == fn) = false := beq_eq_false_iff_ne.mpr h
      exact ⟨e, by simp [addContract, hf, he], hc⟩

theorem addContract_preserve {m : List (Filename × List String)}
    (fn : Filename) (c : String) {k : String}
    (h : ∃ e, e ∈ m ∧ k ∈ e.2) :
    ∃ e, e ∈ addContract m fn c ∧ k ∈ e.2 := by
  induction m with
  | nil =>
    obtain ⟨e, he, _⟩ := h
    exact absurd he (List.not_mem_nil e)
  | cons p rest ih =>
    obtain ⟨fn1, cs⟩ := p
    obtain ⟨e, he, hk⟩ := h
    by_cases hb : fn1 = fn
    · subst hb
      have ht : (fn1 == fn1) = true := beq_iff_eq.mpr rfl
      rcases List.mem_cons.mp he with rfl | hrest
      · exact ⟨(fn1, insertNew cs c), by simp [addContract, ht],
          (mem_insertNew cs c k).mpr (Or.inl hk)⟩
      · exact ⟨e, by simp [addContract, ht, hrest], hk⟩
    · have hf : (fn1 == fn) = false := beq_eq_false_iff_ne.mpr hb
      rcases List.mem_cons.mp he with rfl | hrest
      · exact ⟨(fn1, cs), by simp [addContract, hf], hk⟩
      · obtain ⟨e2, he2, hk2⟩ := ih ⟨e, hrest, hk⟩
        exact ⟨e2, by simp [addContract, hf, he2], hk2⟩

theorem asObj_ok {j : Json} {fs : List (String × Json)} (h : j.asObj = .ok fs) :
    j = .obj fs := by
  cases j <;> simp_all [Json.asObj]

theorem processContract_ok {wd f n : String} {info : Json}
    {u u' : CompilationUnit} (h : processContract wd f n info u = .ok u') :
    u'.uniq_id = u.uniq_id ∧
    u'.compiler_version = u.compiler_version ∧
    u'.filenames = u.filenames ∧
    u'.asts = u.asts ∧
    u'.contracts_names = insertNew u.contracts_names (extract_name n) ∧
    u'.filename_to_contracts =
      addContract u.filename_to_contracts (convert_filename f wd) (extract_name n) ∧
    (∃ a, u'.abis = setKey u.abis (extract_name n) a) ∧
    (∃ s, u'.srcmaps_init = setKey u.srcmaps_init (extract_name n) (pySplit s ';')) ∧
    (∃ s, u'.srcmaps_runtime = setKey u.srcmaps_runtime (extract_name n) (pySplit s ';')) := by
  unfold processContract at h
  obtain ⟨abi, h1, h⟩ := exceptBind_ok_inv h
  obtain ⟨evm, h2, h⟩ := exceptBind_ok_inv h
  obtain ⟨bytecode, h3, h⟩ := exceptBind_ok_inv h
  obtain ⟨initObject, h4, h⟩ := exceptBind_ok_inv h
  obtain ⟨evm2, h5, h⟩ := exceptBind_ok_inv h
  obtain ⟨deployed, h6, h⟩ := exceptBind_ok_inv h
  obtain ⟨runtimeObject, h7, h⟩ := exceptBind_ok_inv h
  obtain ⟨evm3, h8, h⟩ := exceptBind_ok_inv h
  obtain ⟨bytecode2, h9, h⟩ := exceptBind_ok_inv h
  obtain ⟨initMapJson, h10, h⟩ := exceptBind_ok_inv h
  obtain ⟨initMap, h11, h⟩ := exceptBind_ok_inv h
  obtain ⟨evm4, h12, h⟩ := exceptBind_ok_inv h
  obtain ⟨deployed2, h13, h⟩ := exceptBind_ok_inv h
  obtain ⟨runtimeMapJson, h14, h⟩ := exceptBind_ok_inv h
  obtain ⟨runtimeMap, h15, h⟩ := exceptBind_ok_inv h
  obtain ⟨userdoc, h16, h⟩ := exceptBind_ok_inv h
  obtain ⟨devdoc, h17, h⟩ := exceptBind_ok_inv h
  simp only [exceptPure, Except.ok.injEq] at h
  subst h
  exact ⟨rfl, rfl, rfl, rfl, rfl, rfl, ⟨abi, rfl⟩, ⟨initMap, rfl⟩, ⟨runtimeMap, rfl⟩⟩

theorem processContract_abisInv {wd f n : String} {info : Json}
    {u u' : CompilationUnit} (h : processContract wd f n info u = .ok u')
    (hu : abisInv u) : abisInv u' := by
  obtain ⟨-, -, -, -, hcn, hftc, ⟨a, habis⟩, -, -⟩ := processContract_ok h
  intro k hk
  rw [habis, setKey_lookup] at hk
  by_cases hkn : k = extract_name n
  · subst hkn
    refine ⟨?_, ?_⟩
    · rw [hcn]; exact (mem_insertNew _ _ _).mpr (Or.inr rfl)
    · rw [hftc]; exact addContract_exists _ _ _
  · rw [if_neg hkn] at hk
    obtain ⟨hmem, e, he, hke⟩ := hu k hk
    refine ⟨?_, ?_⟩
    · rw [hcn]; exact (mem_insertNew _ _ _).mpr (Or.inl hmem)
    · rw [hftc]; exact addContract_preserve _ _ ⟨e, he, hke⟩

theorem processContract_srcmapsInv {wd f n : String} {info : Json}
    {u u' : CompilationUnit} (h : processContract wd f n info u = .ok u')
    (hu : srcmapsInv u) : srcmapsInv u' := by
  obtain ⟨-, -, -, -, -, -, -, ⟨s1, hsi⟩, ⟨s2, hsr⟩⟩ := processContract_ok h
  intro k l hk
  rcases hk with hk | hk
  · rw [hsi, setKey_lookup] at hk
    by_cases hkn : k = extract_name n
    · rw [if_pos hkn] at hk
      exact ⟨s1, (Option.some.inj hk).symm⟩
    · rw [if_neg hkn] at hk
      exact hu k l (Or.inl hk)
  · rw [hsr, setKey_lookup] at hk
    by_cases hkn : k = extract_name n
    · rw [if_pos hkn] at hk
      exact ⟨s2, (Option.some.inj hk).symm⟩
    · rw [if_neg hkn] at hk
      exact hu k l (Or.inr hk)

theorem processContractList_ok {wd f : String} {l : List (String × Json)}
    {u u' : CompilationUnit} (h : processContractList wd f l u = .ok u') :
    u'.uniq_id = u.uniq_id ∧ u'.compiler_version = u.compiler_version ∧
    u'.filenames = u.filenames ∧ u'.asts = u.asts ∧
    (abisInv u → abisInv u') ∧ (srcmapsInv u → srcmapsInv u') := by
  induction l generalizing u with
  | nil =>
    simp only [processContractList, Except.ok.injEq] at h
    subst h
    exact ⟨rfl, rfl, rfl, rfl, id, id⟩
  | cons p rest ih =>
    obtain ⟨name, info⟩ := p
    unfold processContractList at h
    obtain ⟨u1, hstep, h⟩ := exceptBind_ok_inv h
    obtain ⟨ha, hb, hc, hd, he, hf⟩ := ih h
    obtain ⟨p1, p2, p3, p4, -, -, -, -, -⟩ := processContract_ok hstep
    exact ⟨ha.trans p1, hb.trans p2, hc.trans p3, hd.trans p4,
      fun hi => he (processContract_abisInv hstep hi),
      fun hi => hf (processContract_srcmapsInv hstep hi)⟩

theorem processContracts_ok {wd : String} {l : List (String × Json)}
    {u u' : CompilationUnit} (h : processContracts wd l u = .ok u') :
    u'.uniq_id = u.uniq_id ∧ u'.compiler_version = u.compiler_version ∧
    u'.filenames = u.filenames ∧ u'.asts = u.asts ∧
    (abisInv u → abisInv u') ∧ (srcmapsInv u → srcmapsInv u') := by
  induction l generalizing u with
  | nil =>
    simp only [processContracts, Except.ok.injEq] at h
    subst h
    exact ⟨rfl, rfl, rfl, rfl, id, id⟩
  | cons p rest ih =>
    obtain ⟨fname, cinfo⟩ := p
    unfold processContracts at h
    obtain ⟨inner, hobj, h⟩ := exceptBind_ok_inv h
    obtain ⟨u1, hlist, h⟩ := exceptBind_ok_inv h
    obtain ⟨ha, hb, hc, hd, he, hf⟩ := ih h
    obtain ⟨q1, q2, q3, q4, q5, q6⟩ := processContractList_ok hlist
    exact ⟨ha.trans q1, hb.trans q2, hc.trans q3, hd.trans q4,
      fun hi => he (q5 hi), fun hi => hf (q6 hi)⟩

theorem processSources_ok {skip : Bool} {t wd : String} {l : List (String × Json)}
    {g : List Filename} {u : CompilationUnit} {g' : List Filename}
    {u' : CompilationUnit} (h : processSources skip t wd l g u = .ok (g', u')) :
    u'.uniq_id = u.uniq_id ∧ u'.compiler_version = u.compiler_version ∧
    u'.contracts_names = u.contracts_names ∧
    u'.filename_to_contracts = u.filename_to_contracts ∧
    u'.abis = u.abis ∧ u'.bytecodes_init = u.bytecodes_init ∧
    u'.bytecodes_runtime = u.bytecodes_runtime ∧
    u'.srcmaps_init = u.srcmaps_init ∧ u'.srcmaps_runtime = u.srcmaps_runtime ∧
    u'.natspec = u.natspec ∧
    (∀ fn, fn ∈ u.filenames → fn ∈ u'.filenames) ∧
    (∀ fn, fn ∈ u'.filenames → fn ∈ u.filenames ∨
      ∃ p i, (p, i) ∈ l ∧ fn = convert_filename (if skip then t else p) wd) ∧
    (astsInv u → astsInv u') ∧
    (u.asts ≠ [] → u'.asts ≠ []) := by
  induction l generalizing g u with
  | nil =>
    simp only [processSources, Except.ok.injEq, Prod.mk.injEq] at h
    obtain ⟨-, h2⟩ := h
    subst h2
    exact ⟨rfl, rfl, rfl, rfl, rfl, rfl, rfl, rfl, rfl, rfl,
      fun fn hfn => hfn, fun fn hfn => Or.inl hfn, id, id⟩
  | cons p rest ih =>
    obtain ⟨path, info⟩ := p
    unfold processSources at h
    obtain ⟨ast, hast, h⟩ := exceptBind_ok_inv h
    obtain ⟨q1, q2, q3, q4, q5, q6, q7, q8, q9, q10, qmono, qdesc, qinv, qne⟩ := ih h
    have hfn : (if skip then convert_filename t wd else convert_filename path wd) =
        convert_filename (if skip then t else path) wd := by
      cases skip <;> rfl
    refine ⟨q1, q2, q3, q4, q5, q6, q7, q8, q9, q10, ?_, ?_, ?_, ?_⟩
    · intro fn hfn2
      exact qmono fn ((mem_insertNew _ _ _).mpr (Or.inl hfn2))
    · intro fn hfn2
      rcases qdesc fn hfn2 with hmem | ⟨p2, i2, hp2, hform⟩
      · rcases (mem_insertNew _ _ _).mp hmem with hold | hnew
        · exact Or.inl hold
        · exact Or.inr ⟨path, info, List.mem_cons_self _ _, by rw [hnew, hfn]⟩
      · exact Or.inr ⟨p2, i2, List.mem_cons_of_mem _ hp2, hform⟩
    · intro hi
      apply qinv
      intro k hk
      rw [setKey_lookup] at hk
      by_cases hkn : k = (if skip then convert_filename t wd
          else convert_filename path wd).absolute
      · refine ⟨(if skip then convert_filename t wd else convert_filename path wd),
          (mem_insertNew _ _ _).mpr (Or.inr rfl), hkn⟩
      · rw [if_neg hkn] at hk
        obtain ⟨fn2, hfn2, habs⟩ := hi k hk
        exact ⟨fn2, (mem_insertNew _ _ _).mpr (Or.inl hfn2), habs⟩
    · intro hne2
      exact qne (setKey_ne_nil _ _ _)

theorem processSources_total {skip : Bool} {t wd : String}
    (l : List (String × Json)) (g : List Filename) (u : CompilationUnit)
    (hl : ∀ p i, (p, i) ∈ l → ∃ a, i.getKey "ast" = .ok a) :
    ∃ g' u', processSources skip t wd l g u = .ok (g', u') := by
  induction l generalizing g u with
  | nil => exact ⟨g, u, rfl⟩
  | cons p rest ih =>
    obtain ⟨path, info⟩ := p
    obtain ⟨a, ha⟩ := hl path info (List.mem_cons_self _ _)
    unfold processSources
    rw [ha, exceptBind_ok]
    exact ih _ _ (fun p2 i2 hp2 => hl p2 i2 (List.mem_cons_of_mem _ hp2))

theorem processSources_populates {skip : Bool} {t wd path : String} {info : Json}
    {rest : List (String × Json)} {g : List Filename} {u : CompilationUnit}
    {g' : List Filename} {u' : CompilationUnit}
    (h : processSources skip t wd ((path, info) :: rest) g u = .ok (g', u')) :
    u'.filenames ≠ [] ∧ u'.asts ≠ [] := by
  unfold processSources at h
  obtain ⟨ast, hast, h⟩ := exceptBind_ok_inv h
  obtain ⟨-, -, -, -, -, -, -, -, -, -, qmono, -, -, qne⟩ := processSources_ok h
  refine ⟨?_, qne (setKey_ne_nil _ _ _)⟩
  have hm : (if skip then convert_filename t wd else convert_filename path wd) ∈
      u'.filenames :=
    qmono _ ((mem_insertNew _ _ _).mpr (Or.inr rfl))
  exact List.ne_nil_of_mem hm

theorem astsInv_of_eq {u u' : CompilationUnit} (hf : u'.filenames = u.filenames)
    (ha : u'.asts = u.asts) (hu : astsInv u) : astsInv u' := by
  intro k hk
  rw [ha] at hk
  obtain ⟨fn, hfn, habs⟩ := hu k hk
  exact ⟨fn, by rw [hf]; exact hfn, habs⟩

theorem getKey_ok_memKey {j : Json} {k : String} {x : Json}
    (h : j.getKey k = .ok x) : j.memKey k = .ok true := by
  cases j with
  | obj fields =>
    cases hl : fields.lookup k with
    | none => rw [Json.getKey, hl] at h; exact Except.noConfusion h
    | some v =>
      have hs : (fields.lookup k).isSome = true := by rw [hl]; rfl
      obtain ⟨p, hp, hbeq⟩ := List.lookup_isSome_iff.mp hs
      have hpk : p.1 = k := (beq_iff_eq.mp hbeq).symm
      have : fields.any (fun q => q.1 == k) = true :=
        List.any_eq_true.mpr ⟨p, hp, beq_iff_eq.mpr hpk⟩
      rw [Json.memKey, this]
  | null => exact Except.noConfusion h
  | bool b => exact Except.noConfusion h
  | num n => exact Except.noConfusion h
  | str s => exact Except.noConfusion h
  | arr es => exact Except.noConfusion h

theorem parseTail_facts {skip : Bool} {t wd : String} {tj : Json}
    {g : List Filename} {u1 : CompilationUnit} {g' : List Filename}
    {u' : CompilationUnit}
    (hcase : (g' = g ∧ u' = u1 ∧ tj.memKey "sources" = .ok false) ∨
      ∃ srcs, tj.getKey "sources" = .ok (.obj srcs) ∧
        processSources skip t wd srcs g u1 = .ok (g', u')) :
    u'.uniq_id = u1.uniq_id ∧ u'.compiler_version = u1.compiler_version ∧
    (∀ fn, fn ∈ u'.filenames → fn ∈ u1.filenames ∨
      ∃ p i srcs, tj.getKey "sources" = .ok (.obj srcs) ∧ (p, i) ∈ srcs ∧
        fn = convert_filename (if skip then t else p) wd) ∧
    (abisInv u1 → abisInv u') ∧ (astsInv u1 → astsInv u') ∧
    (srcmapsInv u1 → srcmapsInv u') ∧
    u'.contracts_names = u1.contracts_names ∧
    u'.filename_to_contracts = u1.filename_to_contracts ∧
    u'.abis = u1.abis ∧ u'.bytecodes_init = u1.bytecodes_init ∧
    u'.bytecodes_runtime = u1.bytecodes_runtime ∧
    u'.srcmaps_init = u1.srcmaps_init ∧ u'.srcmaps_runtime = u1.srcmaps_runtime ∧
    u'.natspec = u1.natspec ∧
    (tj.memKey "sources" = .ok false →
      u'.filenames = u1.filenames ∧ u'.asts = u1.asts ∧ g' = g) ∧
    (∀ srcs, tj.getKey "sources" = .ok (.obj srcs) → srcs ≠ [] →
      u'.filenames ≠ [] ∧ u'.asts ≠ []) := by
  rcases hcase with ⟨hg, hu, hmem⟩ | ⟨srcs0, hsj, hps⟩
  · subst hg
    subst hu
    refine ⟨rfl, rfl, fun fn hfn => Or.inl hfn, id, id, id, rfl, rfl, rfl, rfl,
      rfl, rfl, rfl, rfl, fun _ => ⟨rfl, rfl, rfl⟩, ?_⟩
    intro srcs hget hne
    rw [getKey_ok_memKey hget] at hmem
    exact absurd (Except.ok.inj hmem) (by simp)
  · obtain ⟨q1, q2, q3, q4, q5, q6, q7, q8, q9, q10, qmono, qdesc, qinv, qne⟩ :=
      processSources_ok hps
    refine ⟨q1, q2, ?_, ?_, qinv, ?_, q3, q4, q5, q6, q7, q8, q9, q10, ?_, ?_⟩
    · intro fn hfn
      rcases qdesc fn hfn with hold | ⟨p, i, hpi, hform⟩
      · exact Or.inl hold
      · exact Or.inr ⟨p, i, srcs0, hsj, hpi, hform⟩
    · intro hi
      intro k hk
      rw [q5] at hk
      obtain ⟨hmem2, e, he, hke⟩ := hi k hk
      exact ⟨by rw [q3]; exact hmem2, e, by rw [q4]; exact he, hke⟩
    · intro hi
      intro k l hk
      rw [q8, q9] at hk
      exact hi k l hk
    · intro hmem
      rw [getKey_ok_memKey hsj] at hmem
      exact absurd (Except.ok.inj hmem) (by simp)
    · intro srcs hget hne
      rw [hsj] at hget
      have hse : srcs0 = srcs := by
        have := Except.ok.inj hget
        exact (Json.obj.inj this)
      subst hse
      cases srcs0 with
      | nil => exact absurd rfl hne
      | cons p rest =>
        obtain ⟨path, info⟩ := p
        exact processSources_populates hps

theorem parseBody_ok_aux {tj : Json} {skip : Bool} {t wd : String}
    {g : List Filename} {u u1 : CompilationUnit} {g' : List Filename}
    {u' : CompilationUnit} {hasC : Bool}
    (b1 : u1.uniq_id = u.uniq_id) (b2 : u1.compiler_version = u.compiler_version)
    (b3 : u1.filenames = u.filenames) (b4 : u1.asts = u.asts)
    (b5 : abisInv u → abisInv u1) (b6 : srcmapsInv u → srcmapsInv u1)
    (b7 : hasC = false → u1 = u)
    (hmemC : tj.memKey "contracts" = .ok hasC)
    (hcase : (g' = g ∧ u' = u1 ∧ tj.memKey "sources" = .ok false) ∨
      ∃ srcs, tj.getKey "sources" = .ok (.obj srcs) ∧
        processSources skip t wd srcs g u1 = .ok (g', u')) :
    u'.uniq_id = u.uniq_id ∧ u'.compiler_version = u.compiler_version ∧
    (∀ fn, fn ∈ u'.filenames → fn ∈ u.filenames ∨
      ∃ p i srcs, tj.getKey "sources" = .ok (.obj srcs) ∧ (p, i) ∈ srcs ∧
        fn = convert_filename (if skip then t else p) wd) ∧
    (abisInv u → abisInv u') ∧ (astsInv u → astsInv u') ∧
    (srcmapsInv u → srcmapsInv u') ∧
    (tj.memKey "contracts" = .ok false →
      u'.contracts_names = u.contracts_names ∧
      u'.filename_to_contracts = u.filename_to_contracts ∧
      u'.abis = u.abis ∧ u'.bytecodes_init = u.bytecodes_init ∧
      u'.bytecodes_runtime = u.bytecodes_runtime ∧
      u'.srcmaps_init = u.srcmaps_init ∧ u'.srcmaps_runtime = u.srcmaps_runtime ∧
      u'.natspec = u.natspec) ∧
    (tj.memKey "sources" = .ok false →
      u'.filenames = u.filenames ∧ u'.asts = u.asts ∧ g' = g) ∧
    (∀ srcs, tj.getKey "sources" = .ok (.obj srcs) → srcs ≠ [] →
      u'.filenames ≠ [] ∧ u'.asts ≠ []) := by
  obtain ⟨c1, c2, c3, c4, c5, c6, c7, c8, c9, c10, c11, c12, c13, c14, c15, c16⟩ :=
    parseTail_facts hcase
  refine ⟨c1.trans b1, c2.trans b2, ?_, fun hi => c4 (b5 hi),
    fun hi => c5 (astsInv_of_eq b3 b4 hi), fun hi => c6 (b6 hi), ?_, ?_, c16⟩
  · intro fn hfn
    rcases c3 fn hfn with hold | hnew
    · rw [b3] at hold
      exact Or.inl hold
    · exact Or.inr hnew
  · intro hcf
    rw [hmemC] at hcf
    have hcfalse : hasC = false := Except.ok.inj hcf
    have hu1 : u1 = u := b7 hcfalse
    subst hu1
    exact ⟨c7, c8, c9, c10, c11, c12, c13, c14⟩
  · intro hsf
    obtain ⟨d1, d2, d3⟩ := c15 hsf
    exact ⟨d1.trans b3, d2.trans b4, d3⟩

theorem parseBody_ok {tj : Json} {skip : Bool} {t wd : String}
    {g : List Filename} {u : CompilationUnit} {g' : List Filename}
    {u' : CompilationUnit} (h : parseBody tj skip t wd g u = .ok (g', u')) :
    u'.uniq_id = u.uniq_id ∧ u'.compiler_version = u.compiler_version ∧
    (∀ fn, fn ∈ u'.filenames → fn ∈ u.filenames ∨
      ∃ p i srcs, tj.getKey "sources" = .ok (.obj srcs) ∧ (p, i) ∈ srcs ∧
        fn = convert_filename (if skip then t else p) wd) ∧
    (abisInv u → abisInv u') ∧ (astsInv u → astsInv u') ∧
    (srcmapsInv u → srcmapsInv u') ∧
    (tj.memKey "contracts" = .ok false →
      u'.contracts_names = u.contracts_names ∧
      u'.filename_to_contracts = u.filename_to_contracts ∧
      u'.abis = u.abis ∧ u'.bytecodes_init = u.bytecodes_init ∧
      u'.bytecodes_runtime = u.bytecodes_runtime ∧
      u'.srcmaps_init = u.srcmaps_init ∧ u'.srcmaps_runtime = u.srcmaps_runtime ∧
      u'.natspec = u.natspec) ∧
    (tj.memKey "sources" = .ok false →
      u'.filenames = u.filenames ∧ u'.asts = u.asts ∧ g' = g) ∧
    (∀ srcs, tj.getKey "sources" = .ok (.obj srcs) → srcs ≠ [] →
      u'.filenames ≠ [] ∧ u'.asts ≠ []) := by
  unfold parseBody at h
  obtain ⟨hasC, hmemC, h⟩ := exceptBind_ok_inv h
  cases hasC with
  | false =>
    simp only [Bool.false_eq_true, if_false] at h
    obtain ⟨u1, hpure, h⟩ := exceptBind_ok_inv h
    have hu1 : u = u1 := Except.ok.inj hpure
    subst hu1
    obtain ⟨hasS, hmemS, h⟩ := exceptBind_ok_inv h
    refine parseBody_ok_aux rfl rfl rfl rfl id id (fun _ => rfl) hmemC ?_
    cases hasS with
    | false =>
      simp only [Bool.false_eq_true, if_false, exceptPure, Except.ok.injEq,
        Prod.mk.injEq] at h
      exact Or.inl ⟨h.1.symm, h.2.symm, hmemS⟩
    | true =>
      rw [if_pos rfl] at h
      obtain ⟨sj, hsj, h⟩ := exceptBind_ok_inv h
      obtain ⟨srcs, hsrcs, h⟩ := exceptBind_ok_inv h
      have hobj : sj = .obj srcs := asObj_ok hsrcs
      subst hobj
      exact Or.inr ⟨srcs, hsj, h⟩
  | true =>
    rw [if_pos rfl] at h
    obtain ⟨cj, hcj, h⟩ := exceptBind_ok_inv h
    obtain ⟨cl, hcl, h⟩ := exceptBind_ok_inv h
    obtain ⟨u1, hpc, h⟩ := exceptBind_ok_inv h
    obtain ⟨a1, a2, a3, a4, a5, a6⟩ := processContracts_ok hpc
    obtain ⟨hasS, hmemS, h⟩ := exceptBind_ok_inv h
    refine parseBody_ok_aux a1 a2 a3 a4 a5 a6 (fun hf => Bool.noConfusion hf)
      hmemC ?_
    cases hasS with
    | false =>
      simp only [Bool.false_eq_true, if_false, exceptPure, Except.ok.injEq,
        Prod.mk.injEq] at h
      exact Or.inl ⟨h.1.symm, h.2.symm, hmemS⟩
    | true =>
      rw [if_pos rfl] at h
      obtain ⟨sj, hsj, h⟩ := exceptBind_ok_inv h
      obtain ⟨srcs, hsrcs, h⟩ := exceptBind_ok_inv h
      have hobj : sj = .obj srcs := asObj_ok hsrcs
      subst hobj
      exact Or.inr ⟨srcs, hsj, h⟩

theorem parseArtifact_ok_inv {j : Json} {t wd uid : String} {g0 : List Filename}
    {g' : List Filename} {u' : CompilationUnit}
    (h : parseArtifact j t wd uid g0 = .ok (g', u')) :
    ∃ tj v inp lang st op en,
      j.getKey "output" = .ok tj ∧ j.getKey "solcVersion" = .ok v ∧
      j.getKey "input" = .ok inp ∧ inp.getKey "language" = .ok lang ∧
      inp.getKey "settings" = .ok st ∧ st.getKey "optimizer" = .ok op ∧
      op.getKey "enabled" = .ok en ∧
      parseBody tj (v.inStrList legacy_versions) t wd g0
        { emptyUnit uid with compiler_version :=
          { compiler := if lang.eqStr "Solidity" then "solc" else "vyper"
            version := v
            optimized := en } } = .ok (g', u') := by
  unfold parseArtifact at h
  obtain ⟨tj, h1, h⟩ := exceptBind_ok_inv h
  obtain ⟨v, h2, h⟩ := exceptBind_ok_inv h
  obtain ⟨inp, h3, h⟩ := exceptBind_ok_inv h
  obtain ⟨lang, h4, h⟩ := exceptBind_ok_inv h
  obtain ⟨st, h5, h⟩ := exceptBind_ok_inv h
  obtain ⟨op, h6, h⟩ := exceptBind_ok_inv h
  obtain ⟨en, h7, h⟩ := exceptBind_ok_inv h
  exact ⟨tj, v, inp, lang, st, op, en, h1, h2, h3, h4, h5, h6, h7, h⟩

theorem parseBody_total_sources {tj : Json} {srcs : List (String × Json)}
    (skip : Bool) (t wd : String) (g : List Filename) (u : CompilationUnit)
    (hc : tj.memKey "contracts" = .ok false)
    (hs : tj.getKey "sources" = .ok (.obj srcs))
    (hl : ∀ p i, (p, i) ∈ srcs → ∃ a, i.getKey "ast" = .ok a) :
    ∃ g' u', parseBody tj skip t wd g u = .ok (g', u') := by
  unfold parseBody
  rw [hc, exceptBind_ok]
  simp only [Bool.false_eq_true, if_false, exceptPure, exceptBind_ok]
  rw [getKey_ok_memKey hs, exceptBind_ok, if_pos rfl, hs, exceptBind_ok]
  rw [show (Json.obj srcs).asObj = .ok srcs from rfl, exceptBind_ok]
  exact processSources_total srcs g u hl

theorem parseBody_total_none {tj : Json} (skip : Bool) (t wd : String)
    (g : List Filename) (u : CompilationUnit)
    (hc : tj.memKey "contracts" = .ok false)
    (hs : tj.memKey "sources" = .ok false) :
    parseBody tj skip t wd g u = .ok (g, u) := by
  unfold parseBody
  rw [hc, exceptBind_ok]
  simp only [Bool.false_eq_true, if_false, exceptPure, exceptBind_ok]
  rw [hs, exceptBind_ok]
  simp only [Bool.false_eq_true, if_false, exceptPure]

theorem parseArtifact_header {j : Json} (t wd uid : String)
    {tj v inp lang st op en : Json} (g0 : List Filename)
    (h1 : j.getKey "output" = .ok tj) (h2 : j.getKey "solcVersion" = .ok v)
    (h3 : j.getKey "input" = .ok inp) (h4 : inp.getKey "language" = .ok lang)
    (h5 : inp.getKey "settings" = .ok st) (h6 : st.getKey "optimizer" = .ok op)
    (h7 : op.getKey "enabled" = .ok en) :
    parseArtifact j t wd uid g0 =
      parseBody tj (v.inStrList legacy_versions) t wd g0
        { emptyUnit uid with compiler_version :=
          { compiler := if lang.eqStr "Solidity" then "solc" else "vyper"
            version := v
            optimized := en } } := by
  unfold parseArtifact
  rw [h1, exceptBind_ok, h2, exceptBind_ok, h3, exceptBind_ok, h4, exceptBind_ok,
    h5, exceptBind_ok, h6, exceptBind_ok, h7, exceptBind_ok]

theorem pyJoin_pySplit (s : String) (c : Char) : pyJoin c (pySplit s c) = s := by
  unfold pyJoin pySplit
  rw [List.map_map]
  rw [show (String.data ∘ fun cs => String.mk cs) = id from rfl, List.map_id]
  rw [List.intercalate_splitOn]

/-- Claim C2: parsing the spec's minimal artifact yields a unit whose contract name
set is exactly Foo, whose init bytecode for Foo is the string 60, and whose
init source map for Foo is the two-entry split of the artifact's source-map
string. -/
theorem c2_minimal_artifact :
    (parseArtifact c2Artifact "/proj" "/proj" "art0" []).toOption.map
      (fun r => (r.2.contracts_names, r.2.bytecodes_init.lookup "Foo",
        r.2.srcmaps_init.lookup "Foo")) =
      some (["Foo"], some (.str "60"), some ["1:2:0", "3:4:0"]) := rfl

/-- Claim C7: every source-map sequence stored by the parser is the split on `;` of
some string whose rejoin reconstructs it exactly, and on the parameterized
single-contract artifact the stored sequences are precisely the splits of the
two source-map strings, for all strings. -/
theorem c7_srcmap_split_roundtrip :
    (∀ (j : Json) (t wd uid : String) (g0 g : List Filename)
        (u : CompilationUnit), parseArtifact j t wd uid g0 = .ok (g, u) →
      ∀ k l, (u.srcmaps_init.lookup k = some l ∨
          u.srcmaps_runtime.lookup k = some l) →
        ∃ s, l = pySplit s ';' ∧ pyJoin ';' l = s) ∧
    (∀ s1 s2 : String,
      (parseArtifact (srcmapArtifact s1 s2) "/proj" "/proj" "a" []).toOption.map
        (fun r => (r.2.srcmaps_init.lookup "Foo", r.2.srcmaps_runtime.lookup "Foo")) =
      some (some (pySplit s1 ';'), some (pySplit s2 ';'))) := by
  constructor
  · intro j t wd uid g0 g u h k l hk
    obtain ⟨tj, v, inp, lang, st, op, en, h1, h2, h3, h4, h5, h6, h7, hbody⟩ :=
      parseArtifact_ok_inv h
    obtain ⟨-, -, -, -, -, hsm, -, -, -⟩ := parseBody_ok hbody
    have h0 : srcmapsInv { emptyUnit uid with compiler_version :=
        { compiler := if lang.eqStr "Solidity" then "solc" else "vyper"
          version := v
          optimized := en } } := by
      intro k2 l2 hk2
      rcases hk2 with hk2 | hk2 <;> exact absurd hk2 (by simp [emptyUnit])
    obtain ⟨s, hs⟩ := hsm h0 k l hk
    exact ⟨s, hs, by rw [hs, pyJoin_pySplit]⟩
  · intro s1 s2
    rfl

/-- Claim C9 counterexample: an artifact lacking the `output` key makes the parse
fail with a `KeyError` naming that key, not with a single typed
`MalformedArtifact` / `InvalidCompilation` error. -/
theorem c9_counterexample :
    parseArtifact (Json.obj []) "/proj" "/proj" "a" [] =
      .error (.keyError "output") := rfl

/-- Claim C9, amended: whenever the artifact is not valid JSON or one of the
required top-level keys `output`, `solcVersion`, `input` is absent, the run
aborts; the surfaced failure is the underlying exception — a `KeyError`
naming the missing key, or the JSON decode error — rather than one
well-typed MalformedArtifact error. -/
theorem c9_malformed_aborts {fields : List (String × Json)} {t wd uid : String}
    {g0 : List Filename} :
    (fields.lookup "output" = none →
      parseArtifact (.obj fields) t wd uid g0 = .error (.keyError "output")) ∧
    (∀ tj, fields.lookup "output" = some tj →
      fields.lookup "solcVersion" = none →
      parseArtifact (.obj fields) t wd uid g0 = .error (.keyError "solcVersion")) ∧
    (∀ tj v, fields.lookup "output" = some tj →
      fields.lookup "solcVersion" = some v → fields.lookup "input" = none →
      parseArtifact (.obj fields) t wd uid g0 = .error (.keyError "input")) ∧
    (∀ (listing : List (String × Nat)) (read_artifact : String → Option Json)
        (bd t2 wd2 file : String) (rest : List String),
      locateFiles listing = file :: rest → read_artifact file = none →
      compileAll listing read_artifact bd t2 wd2 = .error .jsonDecodeError) := by
  refine ⟨?_, ?_, ?_, ?_⟩
  · intro hout
    unfold parseArtifact
    rw [show (Json.obj fields).getKey "output" = .error (.keyError "output") by
      rw [Json.getKey, hout]]
    rw [exceptBind_error]
  · intro tj hout hver
    unfold parseArtifact
    rw [show (Json.obj fields).getKey "output" = .ok tj by rw [Json.getKey, hout]]
    rw [exceptBind_ok]
    rw [show (Json.obj fields).getKey "solcVersion" =
      .error (.keyError "solcVersion") by rw [Json.getKey, hver]]
    rw [exceptBind_error]
  · intro tj v hout hver hinp
    unfold parseArtifact
    rw [show (Json.obj fields).getKey "output" = .ok tj by rw [Json.getKey, hout]]
    rw [exceptBind_ok]
    rw [show (Json.obj fields).getKey "solcVersion" = .ok v by
      rw [Json.getKey, hver]]
    rw [exceptBind_ok]
    rw [show (Json.obj fields).getKey "input" = .error (.keyError "input") by
      rw [Json.getKey, hinp]]
    rw [exceptBind_error]
  · intro listing read_artifact bd t2 wd2 file rest hloc hread
    unfold compileAll
    rw [hloc]
    rw [if_neg (by simp)]
    unfold compileFiles
    rw [hread]

theorem c9_witness :
    parseArtifact (.obj [("solcVersion", Json.str "0.8.1")]) "/p" "/p" "a" [] =
      .error (.keyError "output") :=
  (@c9_malformed_aborts [("solcVersion", Json.str "0.8.1")] "/p" "/p" "a" []).1 rfl

/-- Claim C4: when the filtered directory listing is empty, compilation fails with
the `InvalidCompilation` no-artifacts error before any unit is produced. -/
theorem c4_no_artifacts {listing : List (String × Nat)}
    (read_artifact : String → Option Json) (bd t wd : String)
    (h : locateFiles listing = []) :
    compileAll listing read_artifact bd t wd =
      .error (.invalidCompilation (noArtifactsMsg bd)) := by
  unfold compileAll
  rw [h]
  rfl

theorem c4_witness :
    compileAll [("notjson.txt", 1)] (fun _ => none) "/bd" "/proj" "/proj" =
      .error (.invalidCompilation (noArtifactsMsg "/bd")) :=
  c4_no_artifacts (fun _ => none) "/bd" "/proj" "/proj" (by decide)

/-- Claim C10: the function `is_supported` returns false whenever `hardhat_ignore` is truthy,
regardless of the filesystem, and otherwise returns true exactly when a
`hardhat.config.js` or `hardhat.config.ts` file exists directly under the
target. -/
theorem c10_is_supported (target : String) (isfile : String → Bool) :
    is_supported target true isfile = false ∧
    (is_supported target false isfile = true ↔
      (isfile (joinpath target "hardhat.config.js") = true ∨
        isfile (joinpath target "hardhat.config.ts") = true)) := by
  refine ⟨rfl, ?_⟩
  simp [is_supported]


theorem c7_witness :
    ∃ s, ["1:2:0", "3:4:0"] = pySplit s ';' ∧ pyJoin ';' ["1:2:0", "3:4:0"] = s :=
  c7_srcmap_split_roundtrip.1 c2Artifact "/proj" "/proj" "art0" [] [] c2Unit rfl
    "Foo" ["1:2:0", "3:4:0"] (Or.inl rfl)

/-- Claim C3: the artifact locator returns exactly the `.json`-suffixed names of the
listing, sorted by modification time ascending; in the retained sequence, any
strictly smaller modification time comes strictly earlier. -/
theorem c3_locator_order (listing : List (String × Nat)) :
    locateFiles listing = (locatePairs listing).map (fun p => p.1) ∧
    (locateFiles listing).Perm
      ((listing.filter (fun p => endsWithJson p.1)).map (fun p => p.1)) ∧
    (locatePairs listing).Pairwise (fun a b => a.2 ≤ b.2) ∧
    (∀ i j (hi : i < (locatePairs listing).length)
        (hj : j < (locatePairs listing).length),
      ((locatePairs listing).get ⟨i, hi⟩).2 < ((locatePairs listing).get ⟨j, hj⟩).2 →
      i < j) := by
  have hr : ∀ l : List (String × Nat),
      (List.insertionSort (fun a b : String × Nat => a.2 ≤ b.2) l).Pairwise
        (fun a b : String × Nat => a.2 ≤ b.2) := by
    haveI : IsTotal (String × Nat) (fun a b : String × Nat => a.2 ≤ b.2) :=
      ⟨fun a b => Nat.le_total a.2 b.2⟩
    haveI : IsTrans (String × Nat) (fun a b : String × Nat => a.2 ≤ b.2) :=
      ⟨fun a b c hab hbc => Nat.le_trans hab hbc⟩
    intro l
    exact List.sorted_insertionSort _ l
  have hpw : (locatePairs listing).Pairwise (fun a b : String × Nat => a.2 ≤ b.2) :=
    (hr listing).sublist (List.filter_sublist _)
  refine ⟨?_, ?_, hpw, ?_⟩
  · unfold locateFiles locatePairs
    rw [List.filter_map]
    rfl
  · unfold locateFiles
    have hperm : (List.insertionSort (fun a b : String × Nat => a.2 ≤ b.2) listing).Perm
        listing := List.perm_insertionSort _ listing
    have h1 := (hperm.map (fun p : String × Nat => p.1)).filter
      (fun f => endsWithJson f)
    refine h1.trans ?_
    rw [List.filter_map]
    exact List.Perm.refl _
  · intro i j hi hj hlt
    have hget := List.pairwise_iff_getElem.mp hpw
    rcases Nat.lt_trichotomy i j with hij | hij | hij
    · exact hij
    · subst hij
      exact absurd hlt (Nat.lt_irrefl _)
    · have := hget j i hj hi hij
      rw [List.get_eq_getElem, List.get_eq_getElem] at hlt
      exact absurd (Nat.lt_of_lt_of_le hlt this) (Nat.lt_irrefl _)

theorem c3_witness : (0 : Nat) < 1 :=
  (c3_locator_order [("b.json", 5), ("a.json", 3), ("c.txt", 1)]).2.2.2 0 1
    (by decide) (by decide) (by decide)

/-- Claim C1 counterexample: a non-Solidity (family vyper) artifact whose version
string is 0.4.0 still has its source path replaced by the canonicalized
project target, so the quirk is not conditioned on the compiler family. -/
theorem c1_counterexample :
    (parseArtifact vyperLegacyArtifact "/proj" "/proj" "a" []).toOption.map
      (fun r => (r.2.compiler_version.compiler, r.2.filenames)) =
      some ("vyper", [convert_filename "/proj" "/proj"]) ∧
    convert_filename "/proj" "/proj" ≠ convert_filename "contracts/a.vy" "/proj" :=
  ⟨rfl, by decide⟩

/-- Claim C1, amended: the legacy path substitution is applied if and only if the
version string is one of 0.4.0 through 0.4.9, regardless of the compiler
family; when it applies every source path becomes the canonicalized project
target, and otherwise every stored filename is the canonicalization of a
reported source path. -/
theorem c1_legacy_quirk_version_only {j : Json} {t wd uid : String}
    {g0 g : List Filename} {u : CompilationUnit} {v : Json}
    (h : parseArtifact j t wd uid g0 = .ok (g, u))
    (hv : j.getKey "solcVersion" = .ok v) :
    (v.inStrList legacy_versions = true →
      ∀ fn, fn ∈ u.filenames → fn = convert_filename t wd) ∧
    (v.inStrList legacy_versions = false →
      ∀ fn, fn ∈ u.filenames → ∃ p i srcs tj,
        j.getKey "output" = .ok tj ∧ tj.getKey "sources" = .ok (.obj srcs) ∧
        (p, i) ∈ srcs ∧ fn = convert_filename p wd) := by
  obtain ⟨tj, v2, inp, lang, st, op, en, h1, h2, h3, h4, h5, h6, h7, hbody⟩ :=
    parseArtifact_ok_inv h
  have hv2 : v = v2 := Except.ok.inj (hv.symm.trans h2)
  subst hv2
  obtain ⟨-, -, hdesc, -, -, -, -, -, -⟩ := parseBody_ok hbody
  constructor
  · intro hlegacy fn hfn
    rcases hdesc fn hfn with hold | ⟨p, i, srcs, hs, hpi, hform⟩
    · exact absurd hold (by simp [emptyUnit])
    · rw [if_pos hlegacy] at hform
      exact hform
  · intro hnot fn hfn
    rcases hdesc fn hfn with hold | ⟨p, i, srcs, hs, hpi, hform⟩
    · exact absurd hold (by simp [emptyUnit])
    · have hne : ¬(v.inStrList legacy_versions = true) := by simp [hnot]
      rw [if_neg hne] at hform
      exact ⟨p, i, srcs, tj, h1, hs, hpi, hform⟩


theorem c1_witness :
    ∃ p i srcs tj,
      sourcesOnlyArtifact.getKey "output" = .ok tj ∧
      tj.getKey "sources" = .ok (.obj srcs) ∧ (p, i) ∈ srcs ∧
      convert_filename "a.sol" "/proj" = convert_filename p "/proj" := by
  have h : parseArtifact sourcesOnlyArtifact "/proj" "/proj" "a" [] =
      .ok ([convert_filename "a.sol" "/proj"], sourcesOnlyUnit) := rfl
  exact (c1_legacy_quirk_version_only h rfl).2 (by decide) _
    (List.mem_singleton.mpr rfl)

/-- Claim C5 counterexample: an artifact defining a contract Foo in two distinct
source files keys Foo in `abis` while Foo appears in the value-sets of two
entries of `filename_to_contracts`, so "exactly one entry" fails. -/
theorem c5_counterexample :
    (parseArtifact duplicateNameArtifact "/proj" "/proj" "a" []).toOption.map
      (fun r => ((r.2.abis.lookup "Foo").isSome,
        (r.2.filename_to_contracts.filter (fun e => e.2.contains "Foo")).length)) =
      some (true, 2) := rfl

/-- Claim C5, amended: after parsing any artifact, every contract name keyed in
`abis` is a member of `contracts_names` and appears in the value-set of at
least one entry of `filename_to_contracts`, and every key of `asts` is the
absolute form of some member of `filenames`. -/
theorem c5_registry_invariants {j : Json} {t wd uid : String}
    {g0 g : List Filename} {u : CompilationUnit}
    (h : parseArtifact j t wd uid g0 = .ok (g, u)) :
    (∀ k, (u.abis.lookup k).isSome = true →
      k ∈ u.contracts_names ∧ ∃ e, e ∈ u.filename_to_contracts ∧ k ∈ e.2) ∧
    (∀ k, (u.asts.lookup k).isSome = true →
      ∃ fn, fn ∈ u.filenames ∧ k = fn.absolute) := by
  obtain ⟨tj, v, inp, lang, st, op, en, h1, h2, h3, h4, h5, h6, h7, hbody⟩ :=
    parseArtifact_ok_inv h
  obtain ⟨-, -, -, habis, hasts, -, -, -, -⟩ := parseBody_ok hbody
  constructor
  · exact habis (fun k hk => absurd hk (by simp [emptyUnit]))
  · exact hasts (fun k hk => absurd hk (by simp [emptyUnit]))

theorem c5_witness :
    "Foo" ∈ c2Unit.contracts_names ∧
      ∃ e, e ∈ c2Unit.filename_to_contracts ∧ "Foo" ∈ e.2 := by
  have h : parseArtifact c2Artifact "/proj" "/proj" "art0" [] =
      .ok ([], c2Unit) := rfl
  exact (c5_registry_invariants h).1 "Foo" rfl

/-- Claim C6: absence of the contracts section, the sources section, or both is not
an error: with both sections absent the parse succeeds with every registry
empty, and with only a well-formed sources section it succeeds with empty
contract registries and populated `filenames` and `asts`. -/
theorem c6_optional_sections {j : Json} {t wd uid : String} {g0 : List Filename}
    {tj v inp lang st op en : Json}
    (h1 : j.getKey "output" = .ok tj) (h2 : j.getKey "solcVersion" = .ok v)
    (h3 : j.getKey "input" = .ok inp) (h4 : inp.getKey "language" = .ok lang)
    (h5 : inp.getKey "settings" = .ok st) (h6 : st.getKey "optimizer" = .ok op)
    (h7 : op.getKey "enabled" = .ok en)
    (hc : tj.memKey "contracts" = .ok false) :
    (tj.memKey "sources" = .ok false →
      ∃ u, parseArtifact j t wd uid g0 = .ok (g0, u) ∧
        u.contracts_names = [] ∧ u.filename_to_contracts = [] ∧ u.abis = [] ∧
        u.bytecodes_init = [] ∧ u.bytecodes_runtime = [] ∧
        u.srcmaps_init = [] ∧ u.srcmaps_runtime = [] ∧ u.natspec = [] ∧
        u.filenames = [] ∧ u.asts = []) ∧
    (∀ srcs, tj.getKey "sources" = .ok (.obj srcs) →
      (∀ p i, (p, i) ∈ srcs → ∃ a, i.getKey "ast" = .ok a) →
      ∃ g u, parseArtifact j t wd uid g0 = .ok (g, u) ∧
        u.contracts_names = [] ∧ u.filename_to_contracts = [] ∧ u.abis = [] ∧
        u.bytecodes_init = [] ∧ u.bytecodes_runtime = [] ∧
        u.srcmaps_init = [] ∧ u.srcmaps_runtime = [] ∧ u.natspec = [] ∧
        (srcs ≠ [] → u.filenames ≠ [] ∧ u.asts ≠ [])) := by
  have hheader := parseArtifact_header t wd uid g0 h1 h2 h3 h4 h5 h6 h7
  constructor
  · intro hs
    refine ⟨{ emptyUnit uid with compiler_version :=
      { compiler := if lang.eqStr "Solidity" then "solc" else "vyper"
        version := v
        optimized := en } }, ?_, rfl, rfl, rfl, rfl, rfl, rfl, rfl, rfl, rfl, rfl⟩
    rw [hheader]
    exact parseBody_total_none (v.inStrList legacy_versions) t wd g0 _ hc hs
  · intro srcs hs hl
    obtain ⟨g', u', hps⟩ := parseBody_total_sources
      (v.inStrList legacy_versions) t wd g0
      { emptyUnit uid with compiler_version :=
        { compiler := if lang.eqStr "Solidity" then "solc" else "vyper"
          version := v
          optimized := en } } hc hs hl
    obtain ⟨-, -, -, -, -, -, hcontr, -, hpop⟩ := parseBody_ok hps
    obtain ⟨r1, r2, r3, r4, r5, r6, r7, r8⟩ := hcontr hc
    refine ⟨g', u', ?_, r1, r2, r3, r4, r5, r6, r7, r8, ?_⟩
    · rw [hheader]
      exact hps
    · intro hne
      exact hpop srcs hs hne

theorem c6_witness :
    (∃ u, parseArtifact emptyOutputArtifact "/proj" "/proj" "a" [] = .ok ([], u) ∧
      u.contracts_names = [] ∧ u.filenames = [] ∧ u.asts = []) ∧
    (∃ g u, parseArtifact sourcesOnlyArtifact "/proj" "/proj" "a" [] = .ok (g, u) ∧
      u.contracts_names = [] ∧ u.abis = [] ∧ u.filenames ≠ [] ∧ u.asts ≠ []) := by
  constructor
  · obtain ⟨u, hu, e1, e2, e3, e4, e5, e6, e7, e8, e9, e10⟩ :=
      (@c6_optional_sections emptyOutputArtifact "/proj" "/proj" "a" []
        (Json.obj []) (.str "0.8.1") solidityInput (.str "Solidity")
        (.obj [("optimizer", .obj [("enabled", .bool true)])])
        (.obj [("enabled", .bool true)]) (.bool true)
        rfl rfl rfl rfl rfl rfl rfl rfl).1 rfl
    exact ⟨u, hu, e1, e9, e10⟩
  · have hl : ∀ p i, (p, i) ∈ [("a.sol", Json.obj [("ast", Json.null)])] →
        ∃ a, i.getKey "ast" = .ok a := by
      intro p i hpi
      have hp := List.mem_singleton.mp hpi
      have hi : i = .obj [("ast", .null)] := ((Prod.mk.injEq _ _ _ _).mp hp).2
      exact ⟨.null, by rw [hi]; rfl⟩
    obtain ⟨g, u, hu, e1, e2, e3, e4, e5, e6, e7, e8, hpop⟩ :=
      (@c6_optional_sections sourcesOnlyArtifact "/proj" "/proj" "a" []
        (.obj [("sources", .obj [("a.sol", .obj [("ast", .null)])])])
        (.str "0.8.1") solidityInput (.str "Solidity")
        (.obj [("optimizer", .obj [("enabled", .bool true)])])
        (.obj [("enabled", .bool true)]) (.bool true)
        rfl rfl rfl rfl rfl rfl rfl rfl).2
        [("a.sol", .obj [("ast", .null)])] rfl hl
    obtain ⟨hne1, hne2⟩ := hpop (by simp)
    exact ⟨g, u, hu, e1, e3, hne1, hne2⟩

theorem mergeDict_lookup (a b : List (String × PathVal)) (k : String)
    (hb : (b.map Prod.fst).Nodup) :
    (mergeDict a b).lookup k = (b.lookup k).orElse (fun _ => a.lookup k) := by
  induction b generalizing a with
  | nil =>
    show a.lookup k = (Option.none.orElse fun _ => a.lookup k)
    rfl
  | cons p bs ih =>
    obtain ⟨k1, v1⟩ := p
    have hb2 : (bs.map Prod.fst).Nodup := (List.nodup_cons.mp hb).2
    have hk1 : k1 ∉ bs.map Prod.fst := (List.nodup_cons.mp hb).1
    show (mergeDict (setKey a k1 v1) bs).lookup k = _
    rw [ih _ hb2]
    by_cases hkk : k = k1
    · subst hkk
      have hbs : bs.lookup k = none := by
        rw [List.lookup_eq_none_iff]
        intro p hp
        have hmem : p.1 ∈ bs.map Prod.fst := List.mem_map_of_mem _ hp
        have hne : k ≠ p.1 := fun he => hk1 (he ▸ hmem)
        simpa using hne
      rw [hbs, setKey_lookup, if_pos rfl]
      have hself : ((k, v1) :: bs).lookup k = some v1 := List.lookup_cons_self
      rw [hself]
      rfl
    · rw [setKey_lookup, if_neg hkk]
      have hbk : (k == k1) = false := beq_eq_false_iff_ne.mpr hkk
      show _ = ((((k1, v1) :: bs).lookup k).orElse fun _ => a.lookup k)
      rw [List.lookup, hbk]

theorem override_paths_nodup (target : String) (args : List (String × String)) :
    ((override_paths target args).map Prod.fst).Nodup := by
  unfold override_paths
  cases truthyArg args "hardhat_cache_directory" <;>
    cases truthyArg args "hardhat_artifacts_directory" <;>
      cases truthyArg args "hardhat_working_dir" <;>
        simp [setKey]

/-- Claim C8: the hardhat path configuration is the three-layer merge of built-in
defaults, probe-reported configuration, and explicit overrides, with later
layers winning on each key; an empty or undecodable probe output falls back
to defaults merged with overrides instead of failing. -/
theorem c8_path_precedence (target : String) (args : List (String × String))
    (config_str : Option String) (json_loads : String → Except Unit Json) :
    (∀ fields, json_loads (probeStr config_str) = .ok (.obj fields) →
      (fields.map Prod.fst).Nodup →
      ∃ m, get_hardhat_paths target args config_str json_loads = .ok m ∧
        ∀ k, m.lookup k =
          (((override_paths target args).lookup k).orElse (fun _ =>
            (((fields.map (fun p => (p.1, PathVal.jsonVal p.2))).lookup k).orElse
              (fun _ => (default_paths target).lookup k)))) ) ∧
    (∀ e, json_loads (probeStr config_str) = .error e →
      get_hardhat_paths target args config_str json_loads =
        .ok (mergeDict (default_paths target) (override_paths target args))) ∧
    ((config_str = none ∨ config_str = some "") →
      json_loads "\x7b\x7d" = .ok (.obj []) →
      get_hardhat_paths target args config_str json_loads =
        .ok (mergeDict (default_paths target) (override_paths target args))) := by
  refine ⟨?_, ?_, ?_⟩
  · intro fields hjl hnd
    refine ⟨mergeDict (mergeDict (default_paths target)
      (fields.map (fun p => (p.1, PathVal.jsonVal p.2)))) (override_paths target args),
      ?_, ?_⟩
    · unfold get_hardhat_paths
      rw [hjl]
    · intro k
      have hnd2 : ((fields.map (fun p => (p.1, PathVal.jsonVal p.2))).map
          Prod.fst).Nodup := by
        rw [List.map_map]
        exact hnd
      rw [mergeDict_lookup _ _ _ (override_paths_nodup target args),
        mergeDict_lookup _ _ _ hnd2]
  · intro e hjl
    unfold get_hardhat_paths
    rw [hjl]
  · intro hcs hempty
    have hps : probeStr config_str = "\x7b\x7d" := by
      rcases hcs with rfl | rfl <;> rfl
    unfold get_hardhat_paths
    rw [hps, hempty]
    rfl

theorem c8_witness :
    ∃ m, get_hardhat_paths "/t" [("hardhat_artifacts_directory", "out")]
        (some "cfg") jsonLoadsW = .ok m ∧
      m.lookup "artifacts" = some (.path "/t/out") := by
  obtain ⟨m, hm, hk⟩ := (c8_path_precedence "/t"
    [("hardhat_artifacts_directory", "out")] (some "cfg") jsonLoadsW).1
    [("artifacts", Json.str "custom")] rfl (by decide)
  refine ⟨m, hm, ?_⟩
  rw [hk "artifacts"]
  rfl
